import Mathlib

/-!
Verification of the `notification` Go package (andreas19/go-notification):
a shallow embedding of `src/notification/notification.go` into Lean.

Modelling conventions:
* Go maps (`map[uint32]*Notification`, `map[string]dbus.Variant`,
  `map[string]action`) become association lists with insert-replace,
  lookup and delete operations (`mapInsert`, `mapLookup`, `mapErase`);
  a well-formed map has pairwise distinct keys (`MapWF`).
* The D-Bus transport is external: a method call's outcome is passed to
  the operation as an explicit `resp` argument, and the positional
  arguments placed on the wire are returned in a `WireNotify` record so
  that theorems can speak about what was sent.
* Callback functions (`func()`, `func(uint32)`) are opaque to the
  library; they are modelled as numeric handler identifiers, and
  "invoke the handler as a goroutine" becomes appending a `SpawnedTask`
  descriptor to the list of tasks spawned by a dispatch step (the tasks
  run concurrently, after the step's registry update is complete).
* `filepath.Abs` is the only filesystem interaction; it is passed in as
  an uninterpreted function `absF : String → String`.
* Go `uint32` values are modelled as `Nat`; `time.Duration` (an `int64`
  count of nanoseconds) as `Int`.
* A Go run-time panic (failed type assertion, out-of-range index) is
  modelled as the result `none` of the affected step.
-/

namespace GoNotification

/-! ## Association-list model of Go maps -/

section AssocMap

variable {κ : Type} {α : Type} [DecidableEq κ]

/-- Go map lookup `m[k]` (with the comma-ok idiom): first entry with key `k`. -/
def mapLookup : List (κ × α) → κ → Option α
  | [], _ => none
  | (k', v) :: rest, k => if k' = k then some v else mapLookup rest k

/-- Go map assignment `m[k] = v`: replace the entry for `k`, or append it. -/
def mapInsert : List (κ × α) → κ → α → List (κ × α)
  | [], k, v => [(k, v)]
  | (k', v') :: rest, k, v =>
      if k' = k then (k, v) :: rest else (k', v') :: mapInsert rest k v

/-- Go `delete(m, k)`: remove the entry for `k` (the first, and in a
well-formed map the only, occurrence). -/
def mapErase : List (κ × α) → κ → List (κ × α)
  | [], _ => []
  | (k', v') :: rest, k =>
      if k' = k then rest else (k', v') :: mapErase rest k

/-- The keys of the map, in order. -/
def mapKeys (m : List (κ × α)) : List κ := m.map Prod.fst

/-- Well-formedness of the association-list model: Go map keys are distinct. -/
def MapWF (m : List (κ × α)) : Prop := (mapKeys m).Nodup

instance (m : List (κ × α)) : Decidable (MapWF m) :=
  inferInstanceAs (Decidable (mapKeys m).Nodup)

end AssocMap

/-! ## Data model (`Urgency`, `action`, `Notification`) -/

/-- Go `type Urgency byte`. -/
abbrev Urgency := Nat

def UrgencyLow : Urgency := 0
def UrgencyNormal : Urgency := 1
def UrgencyCritical : Urgency := 2

/-- A `dbus.Variant` value: either the variant made from an `Urgency`
(`dbus.MakeVariant(urgency)`) or an opaque caller-supplied value. -/
inductive Variant where
  | urgencyV : Urgency → Variant
  | rawV : String → Variant
  deriving DecidableEq

/-- Go `map[string]dbus.Variant`. -/
abbrev Hints := List (String × Variant)

/-- Go `type action struct { name string; handler func() }`; the opaque
callback is a numeric handler identifier. -/
structure action where
  name : String
  handler : Nat
  deriving DecidableEq

/-- `time.Duration`: an `int64` count of nanoseconds. -/
abbrev Duration := Int

/-- `ExpiresNever = time.Duration(0)`: the notification never expires. -/
def ExpiresNever : Duration := 0

/-- `ExpiresDefault = time.Duration(-1000000)`: use the server's default. -/
def ExpiresDefault : Duration := -1000000

/-- `time.Millisecond` (10^6 nanoseconds), for stating timeout laws. -/
def Millisecond : Duration := 1000000

/-- Go `type Notification struct`, the Notification Entity.
`closedHandler` is `none` for the nil handler, `some h` for an opaque
callback with identifier `h`. -/
structure Notification where
  id : Nat
  icon : String
  summary : String
  body : String
  urgency : Urgency
  timeout : Duration
  actions : List (String × action)
  hints : Hints
  closedHandler : Option Nat
  deriving DecidableEq

/-- `New(summary, body string) *Notification`. -/
def New (summary body : String) : Notification :=
  { id := 0, icon := "", summary := summary, body := body,
    urgency := UrgencyNormal, timeout := ExpiresDefault,
    actions := [], hints := [], closedHandler := none }

/-- `func (noti *Notification) actionlist() []string`: the Go loop
`for key, action := range noti.actions { list = append(list, key, action.name) }`,
i.e. sequential two-element appends over the iteration order. -/
def actionlist (noti : Notification) : List String :=
  noti.actions.foldl (fun list ka => list ++ [ka.1, ka.2.name]) []

/-! ## Global state and the Notify / CloseNotification operations -/

/-- The package-level variables: `AppName`, `AppIcon`, `busObj`
(modelled by whether it is non-nil) and the `notifications` registry. -/
structure GlobalState where
  appName : String
  appIcon : String
  initialized : Bool
  notifications : List (Nat × Notification)
  deriving DecidableEq

/-- Errors returned by `Notify`: the `busObj == nil` guard
(`fmt.Errorf("notification: dbus object is empty")`) and the wrapper
`fmt.Errorf("notification: %w", err)` around a transport/protocol
error `err`, which the `%w` verb carries unmodified. -/
inductive NotifyError where
  | notInitialized
  | wrapped : String → NotifyError
  deriving DecidableEq

/-- The positional arguments of the `org.freedesktop.Notifications.Notify`
method call, in wire order. -/
structure WireNotify where
  appName : String
  replacesId : Nat
  icon : String
  summary : String
  body : String
  actions : List String
  hints : Hints
  expireTimeout : Option Int
  deriving DecidableEq

/-! ### Exact model of the float64 computation
`int32(noti.timeout.Seconds() * 1000)`

`time.Duration.Seconds` is `float64(d / 1e9) + float64(d % 1e9) / 1e9`
in IEEE-754 binary64 arithmetic. A finite double is represented exactly
as an integer pair `⟨m, e⟩` with value `m * 2^e`; every operation
computes the exact rational result and rounds it to 53 significant bits
with round-to-nearest, ties-to-even, which is IEEE semantics (the
reachable values are all in the normal range, so neither subnormals nor
overflow arise). -/

/-- `⌊log2 n⌋` by structural recursion on a fuel argument (so that it
evaluates inside the kernel); `log2fuel fuel n` is exact when `n ≤ fuel`. -/
def log2fuel : Nat → Nat → Nat
  | 0, _ => 0
  | fuel + 1, n => if n < 2 then 0 else log2fuel fuel (n / 2) + 1

/-- `⌊log2 n⌋` for `n ≥ 1` (and 0 at 0). -/
def natLog2 (n : Nat) : Nat := log2fuel n n

/-- `⌊log2 (a / b)⌋` for `a, b ≥ 1`. -/
def fracLog2 (a b : Nat) : Int :=
  let la := natLog2 a
  let lb := natLog2 b
  if a * 2 ^ lb < b * 2 ^ la then (la : Int) - lb - 1 else (la : Int) - lb

/-- `a / b` rounded to the nearest natural number, ties to even. -/
def rndiv (a b : Nat) : Nat :=
  let q := a / b
  let r := a % b
  if b < 2 * r then q + 1
  else if 2 * r < b then q
  else if q % 2 = 0 then q else q + 1

/-- A finite IEEE-754 binary64 value, represented exactly: `m * 2^e`. -/
structure F64 where
  m : Int
  e : Int
  deriving DecidableEq

/-- The exact rational value of a represented double. -/
def F64.val (x : F64) : ℚ := (x.m : ℚ) * (2 : ℚ) ^ x.e

/-- Round the positive rational `a / b` (`a, b ≥ 1`) to a double:
scale into `[2^52, 2^53)` and round to nearest, ties to even. -/
def roundPosFrac (a b : Nat) : F64 :=
  let e := fracLog2 a b
  if 0 ≤ 52 - e then
    { m := (rndiv (a * 2 ^ (52 - e).toNat) b : Nat), e := e - 52 }
  else
    { m := (rndiv a (b * 2 ^ (e - 52).toNat) : Nat), e := e - 52 }

/-- Round the rational `num / den` (`den ≥ 1`) to a double. -/
def roundFrac (num : Int) (den : Nat) : F64 :=
  if num = 0 then { m := 0, e := 0 }
  else if 0 < num then roundPosFrac num.toNat den
  else
    let f := roundPosFrac (-num).toNat den
    { m := -f.m, e := f.e }

/-- Round the rational `M * 2^E` to a double. -/
def roundScaled (M E : Int) : F64 :=
  if 0 ≤ E then roundFrac (M * 2 ^ E.toNat) 1 else roundFrac M (2 ^ (-E).toNat)

/-- `float64(n)` for an integer `n`. -/
def f64ofInt (n : Int) : F64 := roundFrac n 1

/-- IEEE binary64 addition: exact sum, then one rounding. -/
def F64.add (x y : F64) : F64 :=
  let E := min x.e y.e
  roundScaled (x.m * 2 ^ (x.e - E).toNat + y.m * 2 ^ (y.e - E).toNat) E

/-- IEEE binary64 multiplication: exact product, then one rounding. -/
def F64.mul (x y : F64) : F64 := roundScaled (x.m * y.m) (x.e + y.e)

/-- IEEE binary64 division: exact quotient, then one rounding. -/
def F64.div (x y : F64) : F64 :=
  let num := if 0 ≤ y.m then x.m else -x.m
  let den := y.m.natAbs
  if 0 ≤ x.e - y.e then roundFrac (num * 2 ^ (x.e - y.e).toNat) den
  else roundFrac num (den * 2 ^ (y.e - x.e).toNat)

/-- `time.Duration.Seconds()` (notification.go uses it at line 175):
`float64(sec) + float64(nsec)/1e9` where `sec`, `nsec` come from the
Go `/` and `%` (T-division) on the `int64` nanosecond count. -/
def durationSeconds (d : Duration) : F64 :=
  F64.add (f64ofInt (Int.tdiv d 1000000000))
    (F64.div (f64ofInt (Int.tmod d 1000000000)) (f64ofInt 1000000000))

/-- The double `noti.timeout.Seconds() * 1000`. -/
def timeoutMillisF64 (d : Duration) : F64 :=
  F64.mul (durationSeconds d) (f64ofInt 1000)

/-- The Go conversion `int32(x)` for a double `x`: discard the
fractional part (truncate toward zero); when the truncated value does
not fit in `int32` the Go result is implementation-dependent, modelled
as `none` (unspecified). -/
def F64.trunc (x : F64) : Int :=
  if 0 ≤ x.e then x.m * 2 ^ x.e.toNat
  else if 0 ≤ x.m then (x.m.toNat / 2 ^ (-x.e).toNat : Nat)
  else -((-x.m).toNat / 2 ^ (-x.e).toNat : Nat)

/-- `int32(x)` with the in-range check; out of range is
implementation-dependent (`none`). -/
def int32OfF64 (x : F64) : Option Int :=
  let t := x.trunc
  if -(2 ^ 31) ≤ t ∧ t < 2 ^ 31 then some t else none

/-- `int32(noti.timeout.Seconds() * 1000)`: the `expire_timeout_ms`
value placed on the wire (`none` = out of `int32` range,
implementation-dependent). -/
def timeoutMillis (d : Duration) : Option Int := int32OfF64 (timeoutMillisF64 d)

instance {ε α : Type} [DecidableEq ε] [DecidableEq α] : DecidableEq (Except ε α) :=
  fun a b =>
    match a, b with
    | .ok x, .ok y => if h : x = y then .isTrue (by rw [h]) else .isFalse (by simp [h])
    | .error x, .error y => if h : x = y then .isTrue (by rw [h]) else .isFalse (by simp [h])
    | .ok _, .error _ => .isFalse (by simp)
    | .error _, .ok _ => .isFalse (by simp)

/-- The outcome of one `Notify(noti)` call: the returned error (if any),
the updated package state, the updated entity (the Go code mutates
`noti` through its pointer), and the wire message, `none` when no
method call was issued. -/
structure NotifyResult where
  result : Except NotifyError Unit
  state : GlobalState
  noti : Notification
  sent : Option WireNotify
  deriving DecidableEq

/-- `func Notify(noti *Notification) error` (notification.go:160-182).
`absF` models `filepath.Abs`; `resp` is the transport's outcome for the
method call: `.ok newId` when the server assigned `newId` (stored into
`noti.id` by `.Store(&noti.id)`), `.error e` for a transport/protocol
error. -/
def Notify (absF : String → String) (st : GlobalState) (noti : Notification)
    (resp : Except String Nat) : NotifyResult :=
  if st.initialized = false then
    { result := .error .notInitialized, state := st, noti := noti, sent := none }
  else
    let icon0 := if noti.icon = "" then st.appIcon else noti.icon
    let icon := if icon0 = "" then icon0 else absF icon0
    let noti1 := { noti with hints := mapInsert noti.hints "urgency" (.urgencyV noti.urgency) }
    let wire : WireNotify :=
      { appName := st.appName, replacesId := noti1.id, icon := icon,
        summary := noti1.summary, body := noti1.body,
        actions := actionlist noti1, hints := noti1.hints,
        expireTimeout := timeoutMillis noti1.timeout }
    match resp with
    | .error e =>
        { result := .error (.wrapped e), state := st, noti := noti1, sent := some wire }
    | .ok newId =>
        let noti2 := { noti1 with id := newId }
        { result := .ok (),
          state := { st with notifications := mapInsert st.notifications newId noti2 },
          noti := noti2, sent := some wire }

/-- `func CloseNotification(noti *Notification) error` (notification.go:185-187):
issue `CloseNotification(noti.id)` and return the call's error verbatim.
The body never touches the registry. Calling through a nil `busObj`
panics in Go, modelled as `none`; otherwise the result is the returned
error (`none` for a nil error), the unchanged state, and the id sent. -/
def CloseNotification (st : GlobalState) (noti : Notification)
    (respErr : Option String) : Option (Option String × GlobalState × Nat) :=
  if st.initialized then some (respErr, st, noti.id) else none

/-! ## Signal dispatch -/

/-- A concurrent task spawned (`go ...`) by a dispatch step: a closed
handler invoked with a reason code, or an action handler invoked. -/
inductive SpawnedTask where
  | closed : Nat → Nat → SpawnedTask
  | invoked : Nat → SpawnedTask
  deriving DecidableEq

/-- `func actionInvokedHandler(id uint32, key string)` (notification.go:111-119):
look up the id, then the action key; spawn the action's handler if both
are present. Returns the (unchanged) registry and the spawned tasks. -/
def actionInvokedHandler (reg : List (Nat × Notification)) (id : Nat)
    (key : String) : List (Nat × Notification) × List SpawnedTask :=
  match mapLookup reg id with
  | none => (reg, [])
  | some noti =>
      match mapLookup noti.actions key with
      | none => (reg, [])
      | some a => (reg, [.invoked a.handler])

/-- `func notificationClosedHandler(id, reason uint32)` (notification.go:121-129):
look up the id; if present, delete the registry entry, then spawn the
closed handler (if set) with the reason. -/
def notificationClosedHandler (reg : List (Nat × Notification)) (id reason : Nat) :
    List (Nat × Notification) × List SpawnedTask :=
  match mapLookup reg id with
  | none => (reg, [])
  | some noti =>
      let reg' := mapErase reg id
      match noti.closedHandler with
      | none => (reg', [])
      | some h => (reg', [.closed h reason])

/-- A value inside a `dbus.Signal`'s `Body []interface{}`. -/
inductive DBusValue where
  | u32 : Nat → DBusValue
  | str : String → DBusValue
  | other : String → DBusValue
  deriving DecidableEq

/-- A `dbus.Signal`: its full member name and its body values. -/
structure DBusSignal where
  name : String
  body : List DBusValue
  deriving DecidableEq

/-- The Go type assertion `v.(uint32)`: `none` models the panic. -/
def asU32 : DBusValue → Option Nat
  | .u32 n => some n
  | _ => none

/-- The Go type assertion `v.(string)`: `none` models the panic. -/
def asStr : DBusValue → Option String
  | .str s => some s
  | _ => none

/-- `strings.HasSuffix(s, suffix)`, as character-list suffix testing. -/
def hasSuffix (s suffix : String) : Bool := suffix.data.isSuffixOf s.data

/-- One iteration of the event-dispatch goroutine started by `Init`
(notification.go:92-101): classify the signal by name suffix and run the
matching handler on the registry. `sig.Body[0].(uint32)` etc. are
unchecked index accesses and type assertions, so a recognized-suffix
signal whose body does not have the expected shape panics: result `none`. -/
def dispatchStep (reg : List (Nat × Notification)) (sig : DBusSignal) :
    Option (List (Nat × Notification) × List SpawnedTask) :=
  if hasSuffix sig.name ".NotificationClosed" then
    match (sig.body.get? 0).bind asU32, (sig.body.get? 1).bind asU32 with
    | some id, some reason => some (notificationClosedHandler reg id reason)
    | _, _ => none
  else if hasSuffix sig.name ".ActionInvoked" then
    match (sig.body.get? 0).bind asU32, (sig.body.get? 1).bind asStr with
    | some id, some key => some (actionInvokedHandler reg id key)
    | _, _ => none
  else
    some (reg, [])

/-! ## Concrete sample values, used by witness theorems -/

/-- A sample registered action (`("open", "Open Log")`, handler id 5). -/
def sampleAction : action := { name := "Open Log", handler := 5 }

/-- A sample entity as in the spec's concrete scenario: summary
"Build finished", critical urgency, one action, a closed handler;
a stale caller-written "urgency" hint to exercise the override law. -/
def sampleNoti : Notification :=
  { id := 7, icon := "", summary := "Build finished", body := "",
    urgency := UrgencyCritical, timeout := ExpiresDefault,
    actions := [("open", sampleAction)],
    hints := [("urgency", Variant.rawV "stale")],
    closedHandler := some 9 }

/-- An initialized package state with an empty registry. -/
def sampleState : GlobalState :=
  { appName := "app", appIcon := "icon.png", initialized := true,
    notifications := [] }

/-- The package state before `Init` has been called. -/
def sampleUninit : GlobalState :=
  { appName := "app", appIcon := "", initialized := false,
    notifications := [] }

/-- A registry holding `sampleNoti` under its id 7. -/
def sampleReg : List (Nat × Notification) := [(7, sampleNoti)]

/-! ## Lemmas about the association-list map operations -/

section AssocMapLemmas

variable {κ : Type} {α : Type} [DecidableEq κ]

theorem mapLookup_mapInsert_self (m : List (κ × α)) (k : κ) (v : α) :
    mapLookup (mapInsert m k v) k = some v := by
  induction m with
  | nil => simp [mapInsert, mapLookup]
  | cons p rest ih =>
      by_cases h : p.1 = k
      · simp [mapInsert, h, mapLookup]
      · simp [mapInsert, h, mapLookup, ih]

theorem mapLookup_mapInsert_ne (m : List (κ × α)) (k k' : κ) (v : α) (h : k' ≠ k) :
    mapLookup (mapInsert m k v) k' = mapLookup m k' := by
  have hk : ¬(k = k') := fun hh => h hh.symm
  induction m with
  | nil =>
      simp only [mapInsert, mapLookup, if_neg hk]
  | cons p rest ih =>
      obtain ⟨pk, pv⟩ := p
      by_cases hp : pk = k
      · have hpk : ¬(pk = k') := fun hh => hk (hp.symm.trans hh)
        simp only [mapInsert, if_pos hp, mapLookup, if_neg hk, if_neg hpk]
      · simp only [mapInsert, if_neg hp, mapLookup, ih]

theorem mapLookup_eq_none_of_not_mem (m : List (κ × α)) (k : κ)
    (h : k ∉ mapKeys m) : mapLookup m k = none := by
  induction m with
  | nil => simp [mapLookup]
  | cons p rest ih =>
      obtain ⟨pk, pv⟩ := p
      simp only [mapKeys, List.map_cons, List.mem_cons] at h
      push_neg at h
      simp only [mapLookup, if_neg (fun hh : pk = k => h.1 hh.symm)]
      exact ih (by simpa [mapKeys] using h.2)

theorem mem_mapKeys_of_mapLookup_eq_some (m : List (κ × α)) (k : κ) (v : α)
    (h : mapLookup m k = some v) : k ∈ mapKeys m := by
  by_contra hmem
  rw [mapLookup_eq_none_of_not_mem m k hmem] at h
  exact Option.noConfusion h

theorem length_mapInsert_of_not_mem (m : List (κ × α)) (k : κ) (v : α)
    (h : k ∉ mapKeys m) : (mapInsert m k v).length = m.length + 1 := by
  induction m with
  | nil => simp [mapInsert]
  | cons p rest ih =>
      simp only [mapKeys, List.map_cons, List.mem_cons] at h
      push_neg at h
      simp only [mapInsert, if_neg (fun hh : p.1 = k => h.1 hh.symm), List.length_cons]
      rw [ih (by simpa [mapKeys] using h.2)]

theorem length_mapInsert_of_mem (m : List (κ × α)) (k : κ) (v : α)
    (h : k ∈ mapKeys m) : (mapInsert m k v).length = m.length := by
  induction m with
  | nil => simp [mapKeys] at h
  | cons p rest ih =>
      by_cases hp : p.1 = k
      · simp [mapInsert, hp]
      · simp only [mapKeys, List.map_cons, List.mem_cons] at h
        rcases h with h | h
        · exact absurd h.symm hp
        · simp only [mapInsert, if_neg hp, List.length_cons]
          rw [ih (by simpa [mapKeys] using h)]

theorem mapLookup_mapErase_ne (m : List (κ × α)) (k k' : κ) (h : k' ≠ k) :
    mapLookup (mapErase m k) k' = mapLookup m k' := by
  induction m with
  | nil => simp [mapErase]
  | cons p rest ih =>
      obtain ⟨pk, pv⟩ := p
      by_cases hp : pk = k
      · have hpk : ¬(pk = k') := fun hh => h ((hp.symm.trans hh).symm)
        simp only [mapErase, if_pos hp, mapLookup, if_neg hpk]
      · simp only [mapErase, if_neg hp, mapLookup, ih]

theorem mapLookup_mapErase_self (m : List (κ × α)) (k : κ) (hwf : MapWF m) :
    mapLookup (mapErase m k) k = none := by
  induction m with
  | nil => simp [mapErase, mapLookup]
  | cons p rest ih =>
      obtain ⟨pk, pv⟩ := p
      simp only [MapWF, mapKeys, List.map_cons, List.nodup_cons] at hwf
      by_cases hp : pk = k
      · subst hp
        simp only [mapErase, if_pos rfl]
        exact mapLookup_eq_none_of_not_mem rest pk (by simpa [mapKeys] using hwf.1)
      · simp only [mapErase, if_neg hp, mapLookup, if_neg hp]
        exact ih (by simpa [MapWF, mapKeys] using hwf.2)

theorem length_mapErase_of_mem (m : List (κ × α)) (k : κ)
    (h : k ∈ mapKeys m) : (mapErase m k).length + 1 = m.length := by
  induction m with
  | nil => simp [mapKeys] at h
  | cons p rest ih =>
      by_cases hp : p.1 = k
      · simp [mapErase, hp]
      · simp only [mapKeys, List.map_cons, List.mem_cons] at h
        rcases h with h | h
        · exact absurd h.symm hp
        · simp only [mapErase, if_neg hp, List.length_cons]
          rw [ih (by simpa [mapKeys] using h)]

end AssocMapLemmas

/-- Sequentially appending `f x` for each `x` (the Go `append` loop)
builds `init ++ l.flatMap f`. -/
theorem foldl_append_eq_flatMap {α β : Type} (l : List α) (f : α → List β)
    (init : List β) :
    l.foldl (fun acc x => acc ++ f x) init = init ++ l.flatMap f := by
  induction l generalizing init with
  | nil => simp
  | cons x rest ih => simp [List.foldl_cons, ih, List.flatMap_cons]

/-! ## Lemmas about the float64 model -/

theorem log2fuel_spec (fuel : Nat) : ∀ n, 0 < n → n ≤ fuel →
    2 ^ log2fuel fuel n ≤ n ∧ n < 2 ^ (log2fuel fuel n + 1) := by
  induction fuel with
  | zero => intro n h1 h2; omega
  | succ fuel ih =>
      intro n h1 h2
      by_cases hn : n < 2
      · simp only [log2fuel, if_pos hn]
        omega
      · simp only [log2fuel, if_neg hn]
        have hrec := ih (n / 2) (by omega) (by omega)
        have h2pow : 2 ^ (log2fuel fuel (n / 2) + 1) = 2 * 2 ^ log2fuel fuel (n / 2) := by
          ring
        constructor
        · calc 2 ^ (log2fuel fuel (n / 2) + 1) = 2 * 2 ^ log2fuel fuel (n / 2) := h2pow
            _ ≤ 2 * (n / 2) := by omega
            _ ≤ n := by omega
        · have : n / 2 < 2 ^ (log2fuel fuel (n / 2) + 1) := hrec.2
          calc n < 2 * (n / 2) + 2 := by omega
            _ ≤ 2 * 2 ^ (log2fuel fuel (n / 2) + 1) := by omega
            _ = 2 ^ (log2fuel fuel (n / 2) + 1 + 1) := by ring

theorem natLog2_spec (n : Nat) (h : 0 < n) :
    2 ^ natLog2 n ≤ n ∧ n < 2 ^ (natLog2 n + 1) :=
  log2fuel_spec n n h le_rfl

theorem two_zpow_sub_natCast (x y : Nat) :
    (2 : ℚ) ^ ((x : Int) - y) = (2 : ℚ) ^ x / (2 : ℚ) ^ y := by
  rw [zpow_sub₀ (by norm_num : (2:ℚ) ≠ 0)]
  norm_num [zpow_natCast]

theorem fracLog2_spec (a b : Nat) (ha : 0 < a) (hb : 0 < b) :
    (2 : ℚ) ^ fracLog2 a b ≤ (a : ℚ) / b ∧
      (a : ℚ) / b < (2 : ℚ) ^ (fracLog2 a b + 1) := by
  obtain ⟨hla1, hla2⟩ := natLog2_spec a ha
  obtain ⟨hlb1, hlb2⟩ := natLog2_spec b hb
  set la := natLog2 a with hla
  set lb := natLog2 b with hlb
  have hbq : (0 : ℚ) < b := by exact_mod_cast hb
  have hp : ∀ k : Nat, (0 : ℚ) < (2 : ℚ) ^ k := fun k => by positivity
  by_cases hc : a * 2 ^ lb < b * 2 ^ la
  · have he : fracLog2 a b = (la : Int) - lb - 1 := by
      simp only [fracLog2, hla, hlb]
      rw [if_pos hc]
    rw [he]
    constructor
    · have h1 : (la : Int) - lb - 1 = (la : Int) - (lb + 1 : Nat) := by push_cast; ring
      rw [h1, two_zpow_sub_natCast]
      rw [div_le_div_iff₀ (hp _) hbq]
      have hnat : 2 ^ la * b ≤ a * 2 ^ (lb + 1) := by
        calc 2 ^ la * b ≤ a * b := Nat.mul_le_mul_right b hla1
          _ ≤ a * 2 ^ (lb + 1) := Nat.mul_le_mul_left a (Nat.le_of_lt hlb2)
      exact_mod_cast hnat
    · have h1 : (la : Int) - lb - 1 + 1 = (la : Int) - lb := by ring
      rw [h1, two_zpow_sub_natCast]
      rw [div_lt_div_iff₀ hbq (hp _)]
      have hc2 : a * 2 ^ lb < 2 ^ la * b := by rw [Nat.mul_comm (2 ^ la) b]; exact hc
      exact_mod_cast hc2
  · have he : fracLog2 a b = (la : Int) - lb := by
      simp only [fracLog2, hla, hlb]
      rw [if_neg hc]
    push_neg at hc
    rw [he]
    constructor
    · rw [two_zpow_sub_natCast]
      rw [div_le_div_iff₀ (hp _) hbq]
      have h2 : 2 ^ la * b ≤ a * 2 ^ lb := by rw [Nat.mul_comm (2 ^ la) b]; exact hc
      exact_mod_cast h2
    · have h1 : (la : Int) - lb + 1 = ((la + 1 : Nat) : Int) - lb := by push_cast; ring
      rw [h1, two_zpow_sub_natCast]
      rw [div_lt_div_iff₀ hbq (hp _)]
      have hnat : a * 2 ^ lb < 2 ^ (la + 1) * b := by
        have hpos : 0 < 2 ^ lb := Nat.pos_pow_of_pos lb (by norm_num)
        calc a * 2 ^ lb < 2 ^ (la + 1) * 2 ^ lb := mul_lt_mul_of_pos_right hla2 hpos
          _ ≤ 2 ^ (la + 1) * b := Nat.mul_le_mul_left _ hlb1
      exact_mod_cast hnat

theorem rndiv_bounds (a b : Nat) (hb : 0 < b) :
    (a : ℚ) / b - 1 / 2 ≤ (rndiv a b : ℚ) ∧
      (rndiv a b : ℚ) ≤ (a : ℚ) / b + 1 / 2 := by
  have hq := Nat.div_add_mod a b
  have hr := Nat.mod_lt a hb
  set q := a / b with hqd
  set r := a % b with hrd
  have hbq : (0 : ℚ) < b := by exact_mod_cast hb
  have haq : (a : ℚ) = b * q + r := by exact_mod_cast hq.symm
  have hdiv : (a : ℚ) / b = q + r / b := by
    rw [haq]
    field_simp
    ring
  have hrb0 : (0 : ℚ) ≤ r / b := by positivity
  have hrb1 : (r : ℚ) / b < 1 := by
    rw [div_lt_one hbq]
    exact_mod_cast hr
  by_cases h1 : b < 2 * r
  · have hhalf : (1 : ℚ) / 2 < r / b := by
      rw [div_lt_div_iff₀ (by norm_num) hbq]
      have : (b : ℚ) < 2 * r := by exact_mod_cast h1
      linarith
    simp only [rndiv, if_pos h1]
    push_cast
    constructor <;> rw [hdiv] <;> linarith
  · by_cases h2 : 2 * r < b
    · have hhalf : (r : ℚ) / b < 1 / 2 := by
        rw [div_lt_div_iff₀ hbq (by norm_num)]
        have : (2 : ℚ) * r < b := by exact_mod_cast h2
        linarith
      simp only [rndiv, if_neg h1, if_pos h2]
      constructor <;> rw [hdiv] <;> linarith
    · have heq : (r : ℚ) / b = 1 / 2 := by
        have : (2 : ℚ) * r = b := by
          have hn : 2 * r = b := by omega
          exact_mod_cast hn
        rw [div_eq_div_iff (ne_of_gt hbq) (by norm_num)]
        linarith
      by_cases h3 : q % 2 = 0
      · simp only [rndiv, if_neg h1, if_neg h2, if_pos h3]
        constructor <;> rw [hdiv] <;> linarith
      · simp only [rndiv, if_neg h1, if_neg h2, if_neg h3]
        push_cast
        constructor <;> rw [hdiv] <;> linarith

theorem round_scale_bounds (qh s : ℚ) (n : ℕ) (hs : 0 < s)
    (hlow : qh / s - 1 / 2 ≤ (n : ℚ)) (hup : (n : ℚ) ≤ qh / s + 1 / 2)
    (hes : s * 2 ^ 53 ≤ 2 * qh) :
    qh - qh / 2 ^ 53 ≤ (n : ℚ) * s ∧ (n : ℚ) * s ≤ qh + qh / 2 ^ 53 := by
  have hsne : s ≠ 0 := ne_of_gt hs
  have h1 : qh - s / 2 ≤ (n : ℚ) * s := by
    have h := mul_le_mul_of_nonneg_right hlow (le_of_lt hs)
    rw [sub_mul, div_mul_cancel₀ _ hsne] at h
    linarith
  have h2 : (n : ℚ) * s ≤ qh + s / 2 := by
    have h := mul_le_mul_of_nonneg_right hup (le_of_lt hs)
    rw [add_mul, div_mul_cancel₀ _ hsne] at h
    linarith
  have h3 : s / 2 ≤ qh / 2 ^ 53 := by linarith
  exact ⟨by linarith, by linarith⟩

theorem roundPosFrac_bounds (a b : Nat) (ha : 0 < a) (hb : 0 < b) :
    (a : ℚ) / b - ((a : ℚ) / b) / 2 ^ 53 ≤ (roundPosFrac a b).val ∧
      (roundPosFrac a b).val ≤ (a : ℚ) / b + ((a : ℚ) / b) / 2 ^ 53 := by
  obtain ⟨he1, he2⟩ := fracLog2_spec a b ha hb
  set e := fracLog2 a b with hedef
  set qh : ℚ := (a : ℚ) / b with hqh
  have haq : (0 : ℚ) < a := by exact_mod_cast ha
  have hbq : (0 : ℚ) < b := by exact_mod_cast hb
  have hq : 0 < qh := div_pos haq hbq
  have h2ne : (2 : ℚ) ≠ 0 := by norm_num
  set s : ℚ := (2 : ℚ) ^ (e - 52) with hsdef
  have hs : 0 < s := zpow_pos (by norm_num) _
  have hes : s * 2 ^ 53 ≤ 2 * qh := by
    have h1 : s * 2 ^ 53 = (2 : ℚ) ^ (e + 1) := by
      rw [hsdef, ← zpow_natCast (2 : ℚ) 53, ← zpow_add₀ h2ne]
      congr 1
      push_cast
      ring
    have h2 : (2 : ℚ) ^ (e + 1) = 2 * (2 : ℚ) ^ e := by
      rw [zpow_add_one₀ h2ne]
      ring
    rw [h1, h2]
    linarith
  have hsinv : s⁻¹ = (2 : ℚ) ^ (52 - e) := by
    rw [hsdef, ← zpow_neg]
    norm_num
  by_cases hcase : 0 ≤ 52 - e
  · have hk : (((52 - e).toNat : ℕ) : ℤ) = 52 - e := Int.toNat_of_nonneg hcase
    set k := (52 - e).toNat with hkdef
    obtain ⟨hl, hu⟩ := rndiv_bounds (a * 2 ^ k) b hb
    have hA : ((a * 2 ^ k : ℕ) : ℚ) / b = qh / s := by
      rw [div_eq_mul_inv qh s, hsinv, ← hk, zpow_natCast, hqh]
      push_cast
      ring
    rw [hA] at hl hu
    have hres := round_scale_bounds qh s _ hs hl hu hes
    have hval : (roundPosFrac a b).val = (rndiv (a * 2 ^ k) b : ℚ) * s := by
      simp only [roundPosFrac, ← hedef, if_pos hcase, F64.val, ← hkdef, hsdef]
      push_cast
      ring
    rw [hval]
    exact hres
  · have hcase' : 0 ≤ e - 52 := by omega
    have hj : (((e - 52).toNat : ℕ) : ℤ) = e - 52 := Int.toNat_of_nonneg hcase'
    set j := (e - 52).toNat with hjdef
    have hbj : 0 < b * 2 ^ j := Nat.mul_pos hb (Nat.pos_pow_of_pos j (by norm_num))
    obtain ⟨hl, hu⟩ := rndiv_bounds a (b * 2 ^ j) hbj
    have hA : (a : ℚ) / ((b * 2 ^ j : ℕ) : ℚ) = qh / s := by
      rw [hsdef, ← hj, zpow_natCast, hqh]
      push_cast
      rw [div_div]
    rw [hA] at hl hu
    have hres := round_scale_bounds qh s _ hs hl hu hes
    have hval : (roundPosFrac a b).val = (rndiv a (b * 2 ^ j) : ℚ) * s := by
      simp only [roundPosFrac, ← hedef, if_neg hcase, F64.val, ← hjdef, hsdef]
      push_cast
      ring
    rw [hval]
    exact hres

theorem roundFrac_bounds (num : Int) (den : Nat) (hnum : 0 ≤ num) (hden : 0 < den) :
    (num : ℚ) / den - ((num : ℚ) / den) / 2 ^ 53 ≤ (roundFrac num den).val ∧
      (roundFrac num den).val ≤ (num : ℚ) / den + ((num : ℚ) / den) / 2 ^ 53 := by
  by_cases h0 : num = 0
  · subst h0
    simp [roundFrac, F64.val]
  · have hpos : 0 < num := lt_of_le_of_ne hnum (Ne.symm h0)
    have ht : (num.toNat : ℤ) = num := Int.toNat_of_nonneg hnum
    have htq : ((num.toNat : ℕ) : ℚ) = (num : ℚ) := by exact_mod_cast ht
    have hres := roundPosFrac_bounds num.toNat den (by omega) hden
    rw [htq] at hres
    simp only [roundFrac, if_neg h0, if_pos hpos]
    exact hres

theorem roundPosFrac_m_nonneg (a b : Nat) : 0 ≤ (roundPosFrac a b).m := by
  simp only [roundPosFrac]
  split <;> exact Int.ofNat_nonneg _

theorem roundFrac_m_nonneg (num : Int) (den : Nat) (hnum : 0 ≤ num) :
    0 ≤ (roundFrac num den).m := by
  by_cases h0 : num = 0
  · subst h0
    simp [roundFrac]
  · have hpos : 0 < num := lt_of_le_of_ne hnum (Ne.symm h0)
    simp only [roundFrac, if_neg h0, if_pos hpos]
    exact roundPosFrac_m_nonneg _ _

theorem roundScaled_bounds (M E : Int) (hM : 0 ≤ M) :
    (M : ℚ) * (2 : ℚ) ^ E - ((M : ℚ) * (2 : ℚ) ^ E) / 2 ^ 53 ≤ (roundScaled M E).val ∧
      (roundScaled M E).val ≤ (M : ℚ) * (2 : ℚ) ^ E + ((M : ℚ) * (2 : ℚ) ^ E) / 2 ^ 53 := by
  by_cases hE : 0 ≤ E
  · have hres := roundFrac_bounds (M * 2 ^ E.toNat) 1
      (mul_nonneg hM (pow_nonneg (by norm_num) _)) one_pos
    have hid : ((M * 2 ^ E.toNat : ℤ) : ℚ) / ((1 : ℕ) : ℚ) = (M : ℚ) * (2 : ℚ) ^ E := by
      push_cast
      rw [div_one, ← zpow_natCast (2 : ℚ) E.toNat, Int.toNat_of_nonneg hE]
    rw [hid] at hres
    simp only [roundScaled, if_pos hE]
    exact hres
  · have hres := roundFrac_bounds M (2 ^ (-E).toNat) hM
      (Nat.pos_pow_of_pos _ (by norm_num))
    have hid : (M : ℚ) / ((2 ^ (-E).toNat : ℕ) : ℚ) = (M : ℚ) * (2 : ℚ) ^ E := by
      push_cast
      rw [← zpow_natCast (2 : ℚ) (-E).toNat, Int.toNat_of_nonneg (by omega : 0 ≤ -E)]
      rw [div_eq_mul_inv, ← zpow_neg]
      norm_num
    rw [hid] at hres
    simp only [roundScaled, if_neg hE]
    exact hres

theorem roundScaled_m_nonneg (M E : Int) (hM : 0 ≤ M) : 0 ≤ (roundScaled M E).m := by
  by_cases hE : 0 ≤ E
  · simp only [roundScaled, if_pos hE]
    exact roundFrac_m_nonneg _ _ (mul_nonneg hM (pow_nonneg (by norm_num) _))
  · simp only [roundScaled, if_neg hE]
    exact roundFrac_m_nonneg _ _ hM

theorem F64.add_bounds (x y : F64) (hx : 0 ≤ x.m) (hy : 0 ≤ y.m) :
    x.val + y.val - (x.val + y.val) / 2 ^ 53 ≤ (F64.add x y).val ∧
      (F64.add x y).val ≤ x.val + y.val + (x.val + y.val) / 2 ^ 53 := by
  have h2ne : (2 : ℚ) ≠ 0 := by norm_num
  set E := min x.e y.e with hE
  set M : Int := x.m * 2 ^ (x.e - E).toNat + y.m * 2 ^ (y.e - E).toNat with hM
  have hMnn : 0 ≤ M :=
    add_nonneg (mul_nonneg hx (pow_nonneg (by norm_num) _))
      (mul_nonneg hy (pow_nonneg (by norm_num) _))
  have h1 : 0 ≤ x.e - E := by
    have := min_le_left x.e y.e
    omega
  have h2 : 0 ≤ y.e - E := by
    have := min_le_right x.e y.e
    omega
  have hid : (M : ℚ) * (2 : ℚ) ^ E = x.val + y.val := by
    rw [hM]
    simp only [F64.val]
    push_cast
    rw [add_mul, mul_assoc, mul_assoc, ← zpow_natCast (2 : ℚ) (x.e - E).toNat,
      ← zpow_natCast (2 : ℚ) (y.e - E).toNat, Int.toNat_of_nonneg h1,
      Int.toNat_of_nonneg h2, ← zpow_add₀ h2ne, ← zpow_add₀ h2ne]
    rw [sub_add_cancel, sub_add_cancel]
  have hres := roundScaled_bounds M E hMnn
  rw [hid] at hres
  have hgoal : (F64.add x y).val = (roundScaled M E).val := by
    simp only [F64.add, ← hE, ← hM]
  rw [hgoal]
  exact hres

theorem F64.mul_bounds (x y : F64) (hx : 0 ≤ x.m) (hy : 0 ≤ y.m) :
    x.val * y.val - (x.val * y.val) / 2 ^ 53 ≤ (F64.mul x y).val ∧
      (F64.mul x y).val ≤ x.val * y.val + (x.val * y.val) / 2 ^ 53 := by
  have h2ne : (2 : ℚ) ≠ 0 := by norm_num
  have hid : ((x.m * y.m : ℤ) : ℚ) * (2 : ℚ) ^ (x.e + y.e) = x.val * y.val := by
    simp only [F64.val]
    push_cast
    rw [zpow_add₀ h2ne]
    ring
  have hres := roundScaled_bounds (x.m * y.m) (x.e + y.e) (mul_nonneg hx hy)
  rw [hid] at hres
  exact hres

theorem F64.div_bounds (x y : F64) (hx : 0 ≤ x.m) (hy : 0 < y.m) :
    x.val / y.val - (x.val / y.val) / 2 ^ 53 ≤ (F64.div x y).val ∧
      (F64.div x y).val ≤ x.val / y.val + (x.val / y.val) / 2 ^ 53 := by
  have h2ne : (2 : ℚ) ≠ 0 := by norm_num
  have hymq : (0 : ℚ) < (y.m : ℚ) := by exact_mod_cast hy
  have hyval : (0 : ℚ) < (y.m : ℚ) * (2 : ℚ) ^ y.e :=
    mul_pos hymq (zpow_pos (by norm_num) _)
  have hnum : (if 0 ≤ y.m then x.m else -x.m) = x.m := if_pos (le_of_lt hy)
  have hden : ((y.m.natAbs : ℕ) : ℚ) = (y.m : ℚ) := by
    have h2 : y.m.natAbs = y.m.toNat := by omega
    rw [h2]
    exact_mod_cast congrArg Int.cast (Int.toNat_of_nonneg (le_of_lt hy))
  by_cases hc : 0 ≤ x.e - y.e
  · have hz : (2 : ℚ) ^ (x.e - y.e) * (2 : ℚ) ^ y.e = (2 : ℚ) ^ x.e := by
      rw [← zpow_add₀ h2ne]
      congr 1
      ring
    have hid : ((x.m * 2 ^ (x.e - y.e).toNat : ℤ) : ℚ) / ((y.m.natAbs : ℕ) : ℚ) =
        x.val / y.val := by
      rw [hden]
      simp only [F64.val]
      push_cast
      rw [← zpow_natCast (2 : ℚ) (x.e - y.e).toNat, Int.toNat_of_nonneg hc]
      rw [div_eq_div_iff (ne_of_gt hymq) (ne_of_gt hyval), ← hz]
      ring
    have hres := roundFrac_bounds (x.m * 2 ^ (x.e - y.e).toNat) y.m.natAbs
      (mul_nonneg hx (pow_nonneg (by norm_num) _)) (Int.natAbs_pos.mpr (ne_of_gt hy))
    rw [hid] at hres
    have hgoal : (F64.div x y).val =
        (roundFrac (x.m * 2 ^ (x.e - y.e).toNat) y.m.natAbs).val := by
      simp only [F64.div, hnum, if_pos hc]
    rw [hgoal]
    exact hres
  · have hc' : 0 ≤ y.e - x.e := by omega
    have hz : (2 : ℚ) ^ x.e * (2 : ℚ) ^ (y.e - x.e) = (2 : ℚ) ^ y.e := by
      rw [← zpow_add₀ h2ne]
      congr 1
      ring
    have hid : ((x.m : ℤ) : ℚ) / ((y.m.natAbs * 2 ^ (y.e - x.e).toNat : ℕ) : ℚ) =
        x.val / y.val := by
      push_cast
      rw [hden]
      simp only [F64.val]
      rw [← zpow_natCast (2 : ℚ) (y.e - x.e).toNat, Int.toNat_of_nonneg hc']
      have hd1 : (0 : ℚ) < (y.m : ℚ) * (2 : ℚ) ^ (y.e - x.e) :=
        mul_pos hymq (zpow_pos (by norm_num) _)
      rw [div_eq_div_iff (ne_of_gt hd1) (ne_of_gt hyval), ← hz]
      ring
    have hres := roundFrac_bounds x.m (y.m.natAbs * 2 ^ (y.e - x.e).toNat) hx
      (Nat.mul_pos (Int.natAbs_pos.mpr (ne_of_gt hy)) (Nat.pos_pow_of_pos _ (by norm_num)))
    rw [hid] at hres
    have hgoal : (F64.div x y).val =
        (roundFrac x.m (y.m.natAbs * 2 ^ (y.e - x.e).toNat)).val := by
      simp only [F64.div, hnum, if_neg hc]
    rw [hgoal]
    exact hres

theorem f64ofInt_bounds (n : Int) (hn : 0 ≤ n) :
    (n : ℚ) - (n : ℚ) / 2 ^ 53 ≤ (f64ofInt n).val ∧
      (f64ofInt n).val ≤ (n : ℚ) + (n : ℚ) / 2 ^ 53 := by
  have hres := roundFrac_bounds n 1 hn one_pos
  simpa using hres

theorem f64ofInt_m_nonneg (n : Int) (hn : 0 ≤ n) : 0 ≤ (f64ofInt n).m :=
  roundFrac_m_nonneg n 1 hn

theorem F64.add_m_nonneg (x y : F64) (hx : 0 ≤ x.m) (hy : 0 ≤ y.m) :
    0 ≤ (F64.add x y).m :=
  roundScaled_m_nonneg _ _
    (add_nonneg (mul_nonneg hx (pow_nonneg (by norm_num) _))
      (mul_nonneg hy (pow_nonneg (by norm_num) _)))

theorem F64.mul_m_nonneg (x y : F64) (hx : 0 ≤ x.m) (hy : 0 ≤ y.m) :
    0 ≤ (F64.mul x y).m :=
  roundScaled_m_nonneg _ _ (mul_nonneg hx hy)

theorem F64.div_m_nonneg (x y : F64) (hx : 0 ≤ x.m) (hy : 0 < y.m) :
    0 ≤ (F64.div x y).m := by
  have hnum : (if 0 ≤ y.m then x.m else -x.m) = x.m := if_pos (le_of_lt hy)
  by_cases hc : 0 ≤ x.e - y.e
  · simp only [F64.div, hnum, if_pos hc]
    exact roundFrac_m_nonneg _ _ (mul_nonneg hx (pow_nonneg (by norm_num) _))
  · simp only [F64.div, hnum, if_neg hc]
    exact roundFrac_m_nonneg _ _ hx

theorem F64.trunc_eq_floor (x : F64) (hx : 0 ≤ x.m) : x.trunc = ⌊x.val⌋ := by
  by_cases he : 0 ≤ x.e
  · have hval : x.val = ((x.m * 2 ^ x.e.toNat : ℤ) : ℚ) := by
      simp only [F64.val]
      push_cast
      rw [← zpow_natCast (2 : ℚ) x.e.toNat, Int.toNat_of_nonneg he]
    rw [hval, Int.floor_intCast]
    simp only [F64.trunc, if_pos he]
  · have hval : x.val = ((x.m.toNat : ℕ) : ℚ) / ((2 ^ (-x.e).toNat : ℕ) : ℚ) := by
      simp only [F64.val]
      have hmq : ((x.m.toNat : ℕ) : ℚ) = (x.m : ℚ) := by
        exact_mod_cast congrArg Int.cast (Int.toNat_of_nonneg hx)
      rw [hmq]
      push_cast
      rw [← zpow_natCast (2 : ℚ) (-x.e).toNat, Int.toNat_of_nonneg (by omega : 0 ≤ -x.e)]
      rw [div_eq_mul_inv, ← zpow_neg]
      norm_num
    rw [hval, Rat.floor_natCast_div_natCast]
    simp only [F64.trunc, if_neg he, if_pos hx]
    exact (Int.ofNat_div _ _).symm

set_option maxRecDepth 8000 in
theorem timeoutMillis_whole_ms (m : Int) (hm1 : 0 < m) (hm2 : m < 2 ^ 31) :
    ∃ v, timeoutMillis (m * Millisecond) = some v ∧ (v = m ∨ v = m - 1) := by
  set d : ℤ := m * Millisecond with hddef
  have hdval : d = m * 1000000 := rfl
  have hdpos : 0 < d := by
    rw [hdval]
    exact mul_pos hm1 (by norm_num)
  set sec : ℤ := Int.tdiv d 1000000000 with hsecdef
  set nsec : ℤ := Int.tmod d 1000000000 with hnsecdef
  have hsec0 : 0 ≤ sec := Int.tdiv_nonneg (le_of_lt hdpos) (by norm_num)
  have hns0 : 0 ≤ nsec := Int.tmod_nonneg _ (le_of_lt hdpos)
  have hnslt : nsec < 1000000000 := Int.tmod_lt_of_pos d (by norm_num)
  have hid : 1000000000 * sec + nsec = d := Int.tdiv_add_tmod d 1000000000
  have hseclt : sec ≤ 2200000 := by
    have hdlt : d ≤ 2147483647 * 1000000 := by
      rw [hdval]
      have : m ≤ 2147483647 := by omega
      nlinarith
    omega
  have hsecq : (sec : ℚ) + (nsec : ℚ) / 1000000000 = (m : ℚ) / 1000 := by
    have h2 : (1000000000 : ℚ) * (sec : ℚ) + (nsec : ℚ) = (d : ℚ) := by
      exact_mod_cast hid
    have h3 : (d : ℚ) = (m : ℚ) * 1000000 := by
      rw [hdval]
      push_cast
      ring
    rw [h3] at h2
    linarith
  have hsecq0 : (0 : ℚ) ≤ (sec : ℚ) := by exact_mod_cast hsec0
  have hsecqlt : (sec : ℚ) ≤ 2200000 := by exact_mod_cast hseclt
  have hnsq0 : (0 : ℚ) ≤ (nsec : ℚ) := by exact_mod_cast hns0
  have hnsqlt : (nsec : ℚ) ≤ 1000000000 := by exact_mod_cast le_of_lt hnslt
  have hmq1 : (1 : ℚ) ≤ (m : ℚ) := by exact_mod_cast hm1
  have hmq2 : (m : ℚ) ≤ 2147483647 := by
    have : m ≤ 2147483647 := by omega
    exact_mod_cast this
  have hC : f64ofInt 1000000000 = ⟨8388608000000000, -23⟩ := by decide
  have hCval : (f64ofInt 1000000000).val = 1000000000 := by
    rw [hC]
    simp only [F64.val]
    rw [show ((-23 : ℤ)) = -((23 : ℕ) : ℤ) by rfl, zpow_neg, zpow_natCast]
    norm_num
  have hCm : 0 < (f64ofInt 1000000000).m := by
    rw [hC]
    norm_num
  have hK : f64ofInt 1000 = ⟨8796093022208000, -43⟩ := by decide
  have hKval : (f64ofInt 1000).val = 1000 := by
    rw [hK]
    simp only [F64.val]
    rw [show ((-43 : ℤ)) = -((43 : ℕ) : ℤ) by rfl, zpow_neg, zpow_natCast]
    norm_num
  have hKm : 0 ≤ (f64ofInt 1000).m := by
    rw [hK]
    norm_num
  obtain ⟨hA1, hA2⟩ := f64ofInt_bounds sec hsec0
  have hAm : 0 ≤ (f64ofInt sec).m := f64ofInt_m_nonneg sec hsec0
  obtain ⟨hB1, hB2⟩ := f64ofInt_bounds nsec hns0
  have hBm : 0 ≤ (f64ofInt nsec).m := f64ofInt_m_nonneg nsec hns0
  set A := f64ofInt sec with hAdef
  set B := f64ofInt nsec with hBdef
  obtain ⟨hX1, hX2⟩ := F64.div_bounds B (f64ofInt 1000000000) hBm hCm
  rw [hCval] at hX1 hX2
  have hXm : 0 ≤ (F64.div B (f64ofInt 1000000000)).m :=
    F64.div_m_nonneg B _ hBm hCm
  set X := F64.div B (f64ofInt 1000000000) with hXdef
  obtain ⟨hY1, hY2⟩ := F64.add_bounds A X hAm hXm
  have hYm : 0 ≤ (F64.add A X).m := F64.add_m_nonneg A X hAm hXm
  set Y := F64.add A X with hYdef
  obtain ⟨hZ1, hZ2⟩ := F64.mul_bounds Y (f64ofInt 1000) hYm hKm
  rw [hKval] at hZ1 hZ2
  have hZm : 0 ≤ (F64.mul Y (f64ofInt 1000)).m := F64.mul_m_nonneg Y _ hYm hKm
  set Z := F64.mul Y (f64ofInt 1000) with hZdef
  have hfin1 : (m : ℚ) - 1 / 2 ≤ Z.val := by linarith
  have hfin2 : Z.val ≤ (m : ℚ) + 1 / 2 := by linarith
  have hvfloor : Z.trunc = ⌊Z.val⌋ := F64.trunc_eq_floor Z hZm
  have hv1 : m - 1 ≤ Z.trunc := by
    rw [hvfloor, Int.le_floor]
    push_cast
    linarith
  have hv2 : Z.trunc ≤ m := by
    rw [hvfloor]
    have hlt : ⌊Z.val⌋ < m + 1 := by
      rw [Int.floor_lt]
      push_cast
      linarith
    omega
  have hTM : timeoutMillisF64 (m * Millisecond) = Z := rfl
  refine ⟨Z.trunc, ?_, by omega⟩
  show int32OfF64 (timeoutMillisF64 (m * Millisecond)) = some Z.trunc
  rw [hTM]
  simp only [int32OfF64]
  rw [if_pos ⟨by omega, by omega⟩]

/-! ## Claim theorems -/

/-- C1: a successful `Notify` call (server assigns id `N`) returns no
error, stores `N` into the entity's `id` field, and makes the registry
map `N` to exactly the updated entity; when `N` was not previously
registered (the first send of a new notification) the registry grows by
exactly one entry, and when `N` was already registered (re-sending a
registered entity for which the server returns the same id) the entry is
replaced and the registry size is unchanged. -/
theorem notify_success_registers (absF : String → String) (st : GlobalState)
    (noti : Notification) (N : Nat) (hinit : st.initialized = true) :
    (Notify absF st noti (.ok N)).result = .ok () ∧
    (Notify absF st noti (.ok N)).noti.id = N ∧
    mapLookup (Notify absF st noti (.ok N)).state.notifications N =
      some (Notify absF st noti (.ok N)).noti ∧
    (N ∉ mapKeys st.notifications →
      (Notify absF st noti (.ok N)).state.notifications.length =
        st.notifications.length + 1) ∧
    (N ∈ mapKeys st.notifications →
      (Notify absF st noti (.ok N)).state.notifications.length =
        st.notifications.length) := by
  refine ⟨?_, ?_, ?_, ?_, ?_⟩
  · simp [Notify, hinit]
  · simp [Notify, hinit]
  · simp [Notify, hinit, mapLookup_mapInsert_self]
  · intro h
    simp only [Notify, hinit]
    simpa using length_mapInsert_of_not_mem st.notifications N _ h
  · intro h
    simp only [Notify, hinit]
    simpa using length_mapInsert_of_mem st.notifications N _ h

/-- C1 witness: sending a fresh entity from an empty registry with
assigned id 7 registers it, growing the registry to one entry. -/
theorem notify_success_registers_witness :
    sampleState.initialized = true ∧
    (Notify id sampleState (New "s" "b") (.ok 7)).result = .ok () ∧
    (Notify id sampleState (New "s" "b") (.ok 7)).noti.id = 7 ∧
    mapLookup (Notify id sampleState (New "s" "b") (.ok 7)).state.notifications 7 =
      some (Notify id sampleState (New "s" "b") (.ok 7)).noti ∧
    (Notify id sampleState (New "s" "b") (.ok 7)).state.notifications.length =
      sampleState.notifications.length + 1 := by
  have h := notify_success_registers id sampleState (New "s" "b") 7 rfl
  exact ⟨rfl, h.1, h.2.1, h.2.2.1, h.2.2.2.1 (by decide)⟩

/-- C2: whenever `Notify` issues a method call, the hints argument on
the wire has its `"urgency"` entry equal to the variant made from the
entity's `urgency` attribute, regardless of what the caller previously
stored under `"urgency"` in the hints map (override law). -/
theorem notify_wire_urgency_override (absF : String → String) (st : GlobalState)
    (noti : Notification) (resp : Except String Nat)
    (hinit : st.initialized = true) :
    ∃ w, (Notify absF st noti resp).sent = some w ∧
      mapLookup w.hints "urgency" = some (.urgencyV noti.urgency) := by
  have h := mapLookup_mapInsert_self noti.hints "urgency" (Variant.urgencyV noti.urgency)
  cases resp with
  | error e => simp [Notify, hinit, h]
  | ok newId => simp [Notify, hinit, h]

/-- C2 witness: for `sampleNoti`, whose caller wrote a stale `"urgency"`
hint, the wire hints carry the critical urgency attribute. -/
theorem notify_wire_urgency_override_witness :
    sampleState.initialized = true ∧
    ∃ w, (Notify id sampleState sampleNoti (.ok 7)).sent = some w ∧
      mapLookup w.hints "urgency" = some (.urgencyV sampleNoti.urgency) :=
  ⟨rfl, notify_wire_urgency_override id sampleState sampleNoti (.ok 7) rfl⟩

/-- C3: processing a `NotificationClosed(id, reason)` event on a
well-formed registry: an unregistered `id` leaves the registry unchanged
and spawns nothing (no error); a registered `id` has exactly its entry
removed (the `id` no longer resolves, every other key resolves as
before, and the size drops by exactly one), and the closed handler, when
set, is spawned exactly once with the exact `reason` from the event —
the registry update is part of the dispatch step itself, while the
spawned task runs afterwards, concurrently, so the entry is gone
regardless of how long the handler runs. -/
theorem closed_event_registry_law (reg : List (Nat × Notification))
    (id reason : Nat) (hwf : MapWF reg) :
    (mapLookup reg id = none → notificationClosedHandler reg id reason = (reg, [])) ∧
    (∀ noti, mapLookup reg id = some noti →
      mapLookup (notificationClosedHandler reg id reason).1 id = none ∧
      (∀ j, j ≠ id →
        mapLookup (notificationClosedHandler reg id reason).1 j = mapLookup reg j) ∧
      (notificationClosedHandler reg id reason).1.length + 1 = reg.length ∧
      (noti.closedHandler = none →
        (notificationClosedHandler reg id reason).2 = []) ∧
      (∀ h, noti.closedHandler = some h →
        (notificationClosedHandler reg id reason).2 = [.closed h reason])) := by
  constructor
  · intro hnone
    simp [notificationClosedHandler, hnone]
  · intro noti hsome
    have hfst : (notificationClosedHandler reg id reason).1 = mapErase reg id := by
      cases hch : noti.closedHandler <;>
        simp [notificationClosedHandler, hsome, hch]
    refine ⟨?_, ?_, ?_, ?_, ?_⟩
    · rw [hfst]
      exact mapLookup_mapErase_self reg id hwf
    · intro j hj
      rw [hfst]
      exact mapLookup_mapErase_ne reg id j hj
    · rw [hfst]
      exact length_mapErase_of_mem reg id
        (mem_mapKeys_of_mapLookup_eq_some reg id noti hsome)
    · intro hch
      simp [notificationClosedHandler, hsome, hch]
    · intro h hch
      simp [notificationClosedHandler, hsome, hch]

/-- C3 witness: the spec's concrete scenario — `NotificationClosed(7, 2)`
on a registry holding `sampleNoti` (closed handler 9) under id 7 removes
the entry and spawns handler 9 with reason 2 exactly once; and the same
event on the empty registry is a no-op. -/
theorem closed_event_registry_law_witness :
    mapLookup (notificationClosedHandler sampleReg 7 2).1 7 = none ∧
    (notificationClosedHandler sampleReg 7 2).1.length + 1 = sampleReg.length ∧
    (notificationClosedHandler sampleReg 7 2).2 = [.closed 9 2] ∧
    notificationClosedHandler [] 7 2 = ([], []) := by
  have h := closed_event_registry_law sampleReg 7 2 (by decide)
  have h2 := h.2 sampleNoti (by decide)
  have h0 := (closed_event_registry_law [] 7 2 (by decide)).1 (by decide)
  exact ⟨h2.1, h2.2.2.1, h2.2.2.2.2 9 (by decide), h0⟩

/-- C4: processing an `ActionInvoked(id, key)` event: an unregistered
`id`, or a registered `id` whose entity does not carry an action under
`key`, leaves the registry unchanged and spawns nothing (no error); when
both id and action key are registered, exactly that action's handler is
spawned, exactly once, as a separate concurrent task, and the registry
is unchanged. -/
theorem action_event_dispatch_law (reg : List (Nat × Notification))
    (id : Nat) (key : String) :
    (mapLookup reg id = none → actionInvokedHandler reg id key = (reg, [])) ∧
    (∀ noti, mapLookup reg id = some noti →
      (mapLookup noti.actions key = none →
        actionInvokedHandler reg id key = (reg, [])) ∧
      (∀ a, mapLookup noti.actions key = some a →
        actionInvokedHandler reg id key = (reg, [.invoked a.handler]))) := by
  refine ⟨fun hnone => by simp [actionInvokedHandler, hnone], ?_⟩
  intro noti hsome
  constructor
  · intro hka
    simp [actionInvokedHandler, hsome, hka]
  · intro a hka
    simp [actionInvokedHandler, hsome, hka]

/-- C4 witness: the spec's concrete scenario — `ActionInvoked(7, "open")`
on a registry holding `sampleNoti` spawns the `"open"` action's handler
(id 5) exactly once and leaves the registry unchanged, while the key
`"bogus"` and the unknown id 8 spawn nothing. -/
theorem action_event_dispatch_law_witness :
    actionInvokedHandler sampleReg 7 "open" = (sampleReg, [.invoked 5]) ∧
    actionInvokedHandler sampleReg 7 "bogus" = (sampleReg, []) ∧
    actionInvokedHandler sampleReg 8 "open" = (sampleReg, []) := by
  have h := action_event_dispatch_law sampleReg 7 "open"
  have hb := action_event_dispatch_law sampleReg 7 "bogus"
  have h8 := action_event_dispatch_law sampleReg 8 "open"
  exact ⟨(h.2 sampleNoti (by decide)).2 sampleAction (by decide),
    (hb.2 sampleNoti (by decide)).1 (by decide),
    h8.1 (by decide)⟩

/-- C5: `Notify` on an uninitialized state (nil `busObj`) returns the
NotInitialized error and changes nothing at all — state (hence the
registry, in particular an empty one stays empty) and entity are
returned exactly as given and no method call is issued; and on an
initialized state a transport/protocol error `e` is returned to the
caller carried unmodified inside the `"notification: %w"` wrapper while
the state (hence the registry) is left unchanged — no partial
registration. -/
theorem notify_error_propagation (absF : String → String) (st : GlobalState)
    (noti : Notification) :
    (∀ resp, st.initialized = false →
      Notify absF st noti resp =
        { result := .error .notInitialized, state := st, noti := noti,
          sent := none }) ∧
    (∀ e, st.initialized = true →
      (Notify absF st noti (.error e)).result = .error (.wrapped e) ∧
      (Notify absF st noti (.error e)).state = st) := by
  constructor
  · intro resp hinit
    simp [Notify, hinit]
  · intro e hinit
    constructor <;> simp [Notify, hinit]

/-- C5 witness: before initialization, `Notify` fails with the
NotInitialized error and the (empty) registry stays empty; after
initialization, a transport error `"boom"` comes back wrapped around
exactly `"boom"` with the registry untouched. -/
theorem notify_error_propagation_witness :
    Notify id sampleUninit (New "s" "b") (.ok 7) =
      { result := .error .notInitialized, state := sampleUninit,
        noti := New "s" "b", sent := none } ∧
    (Notify id sampleState (New "s" "b") (.error "boom")).result =
      .error (.wrapped "boom") ∧
    (Notify id sampleState (New "s" "b") (.error "boom")).state = sampleState := by
  refine ⟨(notify_error_propagation id sampleUninit (New "s" "b")).1 (.ok 7) rfl, ?_, ?_⟩
  · exact ((notify_error_propagation id sampleState (New "s" "b")).2 "boom" rfl).1
  · exact ((notify_error_propagation id sampleState (New "s" "b")).2 "boom" rfl).2

/-- C6: `CloseNotification` issues the close-request call with the
entity's current `id` and returns the transport's error verbatim; it
never modifies the package state — in particular the registry — so any
number of repeated calls for the same entity leave the registry state
determined solely by the signals the dispatch loop processes. -/
theorem close_request_frame_law (st : GlobalState) (noti : Notification)
    (respErr : Option String) (hinit : st.initialized = true) :
    CloseNotification st noti respErr = some (respErr, st, noti.id) := by
  simp [CloseNotification, hinit]

/-- C6 witness: closing `sampleNoti` twice (once with a nil error, once
with a server-side protocol error) sends id 7 both times and leaves the
state — registry included — exactly as it was. -/
theorem close_request_frame_law_witness :
    CloseNotification sampleState sampleNoti none =
      some (none, sampleState, 7) ∧
    CloseNotification sampleState sampleNoti (some "protocol error") =
      some (some "protocol error", sampleState, 7) :=
  ⟨close_request_frame_law sampleState sampleNoti none rfl,
   close_request_frame_law sampleState sampleNoti (some "protocol error") rfl⟩

/-- C7 counterexample: the claim that processing a single malformed
event never terminates the dispatch loop is false on the code. A signal
whose name ends in `".NotificationClosed"` but whose body holds a string
instead of a `uint32` fails the unchecked type assertion
`sig.Body[0].(uint32)` (notification.go:96): the goroutine panics, here
the step result `none`. -/
theorem dispatch_malformed_body_panics :
    dispatchStep []
      { name := "org.freedesktop.Notifications.NotificationClosed",
        body := [.str "oops"] } = none := by decide

/-- C7 (amended): each event is classified solely by its name suffix,
`".NotificationClosed"` first, then `".ActionInvoked"`, everything else
ignored; an event with an unrecognized name is dropped without touching
the registry and without error, and a recognized event with the expected
body shape is processed by the matching handler — but an event whose
name matches a recognized suffix while its body does not have the
expected arity/types fails the unchecked `.(uint32)` / `.(string)`
assertion of that branch and makes the dispatch step panic (`none`),
terminating the loop. -/
theorem dispatch_classification_law (reg : List (Nat × Notification))
    (sig : DBusSignal) :
    (hasSuffix sig.name ".NotificationClosed" = false →
      hasSuffix sig.name ".ActionInvoked" = false →
      dispatchStep reg sig = some (reg, [])) ∧
    (∀ id reason rest, hasSuffix sig.name ".NotificationClosed" = true →
      sig.body = DBusValue.u32 id :: DBusValue.u32 reason :: rest →
      dispatchStep reg sig = some (notificationClosedHandler reg id reason)) ∧
    (∀ id key rest, hasSuffix sig.name ".NotificationClosed" = false →
      hasSuffix sig.name ".ActionInvoked" = true →
      sig.body = DBusValue.u32 id :: DBusValue.str key :: rest →
      dispatchStep reg sig = some (actionInvokedHandler reg id key)) ∧
    (hasSuffix sig.name ".NotificationClosed" = true →
      ((sig.body.get? 0).bind asU32 = none ∨ (sig.body.get? 1).bind asU32 = none) →
      dispatchStep reg sig = none) ∧
    (hasSuffix sig.name ".NotificationClosed" = false →
      hasSuffix sig.name ".ActionInvoked" = true →
      ((sig.body.get? 0).bind asU32 = none ∨ (sig.body.get? 1).bind asStr = none) →
      dispatchStep reg sig = none) := by
  refine ⟨?_, ?_, ?_, ?_, ?_⟩
  · intro h1 h2
    simp [dispatchStep, h1, h2]
  · intro id reason rest h1 hbody
    simp [dispatchStep, h1, hbody, asU32]
  · intro id key rest h1 h2 hbody
    simp [dispatchStep, h1, h2, hbody, asU32, asStr]
  · intro h1 hbad
    simp only [List.get?_eq_getElem?] at hbad
    rcases hbad with hbad | hbad
    · simp [dispatchStep, h1, hbad]
    · cases hb0 : sig.body[0]?.bind asU32 with
      | none => simp [dispatchStep, h1, hb0]
      | some v => simp [dispatchStep, h1, hb0, hbad]
  · intro h1 h2 hbad
    simp only [List.get?_eq_getElem?] at hbad
    rcases hbad with hbad | hbad
    · simp [dispatchStep, h1, h2, hbad]
    · cases hb0 : sig.body[0]?.bind asU32 with
      | none => simp [dispatchStep, h1, h2, hb0]
      | some v => simp [dispatchStep, h1, h2, hb0, hbad]

/-- C7 witness: an unrecognized signal name is ignored; a well-formed
`NotificationClosed(7, 2)` is dispatched to the closed handler; a
well-formed `ActionInvoked(7, "open")` is dispatched to the action
handler; a `NotificationClosed` with an empty body panics, and an
`ActionInvoked` whose second body value is a `uint32` instead of a
string panics. -/
theorem dispatch_classification_law_witness :
    dispatchStep sampleReg { name := "org.x.Other", body := [] } =
      some (sampleReg, []) ∧
    dispatchStep sampleReg
        { name := "org.freedesktop.Notifications.NotificationClosed",
          body := [.u32 7, .u32 2] } =
      some (notificationClosedHandler sampleReg 7 2) ∧
    dispatchStep sampleReg
        { name := "org.freedesktop.Notifications.ActionInvoked",
          body := [.u32 7, .str "open"] } =
      some (actionInvokedHandler sampleReg 7 "open") ∧
    dispatchStep sampleReg
        { name := "org.freedesktop.Notifications.NotificationClosed",
          body := [] } = none ∧
    dispatchStep sampleReg
        { name := "org.freedesktop.Notifications.ActionInvoked",
          body := [.u32 7, .u32 2] } = none := by
  refine ⟨?_, ?_, ?_, ?_, ?_⟩
  · exact (dispatch_classification_law sampleReg _).1 (by decide) (by decide)
  · exact (dispatch_classification_law sampleReg _).2.1 7 2 [] (by decide) rfl
  · exact (dispatch_classification_law sampleReg _).2.2.1 7 "open" []
      (by decide) (by decide) rfl
  · exact (dispatch_classification_law sampleReg _).2.2.2.1 (by decide) (.inl rfl)
  · exact (dispatch_classification_law sampleReg _).2.2.2.2 (by decide) (by decide)
      (.inr rfl)

/-- C8: the action list passed as the `actions` wire argument is the
concatenation of one adjacent `[key, display-name]` pair per registered
action and nothing else, so its length is twice the number of registered
actions. -/
theorem actionlist_adjacent_pairs (noti : Notification) :
    actionlist noti = noti.actions.flatMap (fun ka => [ka.1, ka.2.name]) ∧
    (actionlist noti).length = 2 * noti.actions.length := by
  have hflat : actionlist noti = noti.actions.flatMap (fun ka => [ka.1, ka.2.name]) := by
    simpa [actionlist] using
      foldl_append_eq_flatMap noti.actions (fun ka => [ka.1, ka.2.name]) []
  refine ⟨hflat, ?_⟩
  rw [hflat]
  induction noti.actions with
  | nil => simp
  | cons x xs ih =>
      simp only [List.flatMap_cons, List.length_append, List.length_cons,
        List.length_nil, List.length_cons, ih]
      ring

set_option maxRecDepth 8000 in
/-- C9 counterexample: the claim that every positive duration maps to
its length in milliseconds is false on the code. For a timeout of 1001
whole milliseconds, `int32(timeout.Seconds() * 1000)` computes
`(1.0 + 1e6/1e9) * 1000 = 1000.9999999999999` in float64 and sends
1000, not 1001. -/
theorem timeout_conversion_counterexample :
    timeoutMillis (1001 * Millisecond) = some 1000 ∧ (1000 : Int) ≠ 1001 :=
  ⟨by decide, by decide⟩

set_option maxRecDepth 8000 in
/-- C9 (amended): the `expire_timeout_ms` wire argument equals the
entity's timeout passed through the code's `float64` seconds-times-1000
computation truncated to `int32`: `ExpiresNever` is sent as 0 (never
expire), `ExpiresDefault` is sent as a negative value (use the server
default), and a positive duration of `m` whole milliseconds within
`int32` range is sent as `m` or, through float64 rounding, as `m - 1`;
conversions whose truncated value falls outside `int32` range are
implementation-dependent (modelled as unspecified). -/
theorem notify_timeout_conversion (absF : String → String) (st : GlobalState)
    (noti : Notification) (resp : Except String Nat)
    (hinit : st.initialized = true) :
    (∃ w, (Notify absF st noti resp).sent = some w ∧
      w.expireTimeout = timeoutMillis noti.timeout) ∧
    timeoutMillis ExpiresNever = some 0 ∧
    (∃ v, timeoutMillis ExpiresDefault = some v ∧ v < 0) ∧
    (∀ m : Int, 0 < m → m < 2 ^ 31 →
      ∃ v, timeoutMillis (m * Millisecond) = some v ∧ (v = m ∨ v = m - 1)) := by
  refine ⟨?_, by decide, ⟨-1, by decide, by decide⟩, ?_⟩
  · cases resp with
    | error e => simp [Notify, hinit]
    | ok newId => simp [Notify, hinit]
  · intro m hm1 hm2
    exact timeoutMillis_whole_ms m hm1 hm2

set_option maxRecDepth 8000 in
/-- C9 witness: for `sampleNoti` (timeout `ExpiresDefault`) the wire
carries the converted timeout; the sentinels convert to `some 0` and a
negative value; a 2500 ms timeout is sent as 2500. -/
theorem notify_timeout_conversion_witness :
    (∃ w, (Notify id sampleState sampleNoti (.ok 7)).sent = some w ∧
      w.expireTimeout = timeoutMillis sampleNoti.timeout) ∧
    timeoutMillis ExpiresNever = some 0 ∧
    (∃ v, timeoutMillis ExpiresDefault = some v ∧ v < 0) ∧
    (∃ v, timeoutMillis (2500 * Millisecond) = some v ∧
      (v = 2500 ∨ v = 2500 - 1)) := by
  have h := notify_timeout_conversion id sampleState sampleNoti (.ok 7) rfl
  exact ⟨h.1, h.2.1, h.2.2.1, h.2.2.2 2500 (by decide) (by decide)⟩

/-- C10: `Notify` mutates the entity beyond its `id` field: it writes
the `"urgency"` key into the entity's own hints map before issuing the
method call, so when the call fails with a transport error the returned
entity still differs from the input exactly by that hints write (its
`id` is untouched, and the hints now resolve `"urgency"` to the urgency
attribute), while the registry/state is unchanged — the
no-partial-registration guarantee covers the registry only, not the
entity's fields. -/
theorem notify_mutation_on_failure (absF : String → String) (st : GlobalState)
    (noti : Notification) (e : String) (hinit : st.initialized = true) :
    (Notify absF st noti (.error e)).result = .error (.wrapped e) ∧
    (Notify absF st noti (.error e)).state = st ∧
    (Notify absF st noti (.error e)).noti =
      { noti with hints := mapInsert noti.hints "urgency" (.urgencyV noti.urgency) } ∧
    (Notify absF st noti (.error e)).noti.id = noti.id ∧
    mapLookup (Notify absF st noti (.error e)).noti.hints "urgency" =
      some (.urgencyV noti.urgency) := by
  have h := mapLookup_mapInsert_self noti.hints "urgency" (Variant.urgencyV noti.urgency)
  refine ⟨?_, ?_, ?_, ?_, ?_⟩ <;> simp [Notify, hinit, h]

/-- C10 witness: a failed send of a fresh entity (`New`, normal urgency)
leaves the registry empty but comes back with an `"urgency"` entry in
the entity's own hints map. -/
theorem notify_mutation_on_failure_witness :
    (Notify id sampleState (New "s" "b") (.error "boom")).state = sampleState ∧
    mapLookup (Notify id sampleState (New "s" "b") (.error "boom")).noti.hints
      "urgency" = some (.urgencyV UrgencyNormal) := by
  have h := notify_mutation_on_failure id sampleState (New "s" "b") "boom" rfl
  exact ⟨h.2.1, h.2.2.2.2⟩

end GoNotification
